import Mathlib

/-!
Shallow embedding of the dashboard aggregation and trend-derivation logic of
the project-portfolio status dashboard: the trend-series builders, the
strategic-group extractor, current-status selection, the client-side
filter/sort of the projects page, the server proxy route, and the server
aggregation routes, together with proofs of behavioural properties of these
functions.

JavaScript `Array.prototype.sort` is required by the language specification
to be a stable sort, and a stable sort under a consistent comparator has a
unique result; it is modelled throughout by `List.insertionSort`, which is
stable, with the comparator translated to the relation "compare(a, b) ≤ 0".
The JavaScript date parser (`new Date(s).getTime()`) is abstracted as an
arbitrary valuation `dateVal : String → Int`; properties are proved for
every valuation.
-/

namespace Projectr

/-- Chart point shape shared by the trend builders: a date string plus RAG
counts and a total (`TrendData` in part_001, `ChartData` in
analytics-overview.tsx; both have fields date/Green/Amber/Red/total). -/
structure TrendData where
  date : String
  green : Int
  amber : Int
  red : Int
  total : Int
deriving Repr, DecidableEq

/-- One entry of an Assessment trends array: assessment date plus RAG counts
and a total. -/
structure AssessTrend where
  assessmentDate : String
  green : Int
  amber : Int
  red : Int
  total : Int
deriving Repr, DecidableEq

/-- Assessment record as consumed by the trend builders: top-level RAG
project counts, an optional error-project count (absent from the part_001
interface; guarded with a default of 0 in analytics-overview.tsx), a total,
and an optional trends array. -/
structure Assessment where
  assessmentDate : String
  greenProjects : Int
  amberProjects : Int
  redProjects : Int
  errorProjects : Option Int
  totalProjects : Int
  trends : Option (List AssessTrend)
deriving Repr, DecidableEq

/-- Flattening step of getTrendData (part_001): collect the trend entries of
all assessments into one list, a missing trends array contributing the empty
list (`assessment.trends?.map(...) || []`). -/
def flatTrends (assessments : List Assessment) : List TrendData :=
  assessments.foldr
    (fun a rest =>
      (match a.trends with
       | some ts => ts.map (fun t => ⟨t.assessmentDate, t.green, t.amber, t.red, t.total⟩)
       | none => []) ++ rest)
    []

/-- One step of the duplicate-removal reduce of getTrendData (part_001): the
incoming point is appended only when no already-kept point has its date. -/
def dedupStep (acc : List TrendData) (current : TrendData) : List TrendData :=
  match acc.find? (fun item => item.date == current.date) with
  | some _ => acc
  | none => acc ++ [current]

/-- Duplicate removal of getTrendData (part_001): fold the flattened points
left to right, keeping the first point seen for each date. -/
def dedupByDate (l : List TrendData) : List TrendData :=
  l.foldl dedupStep []

/-- getTrendData of the part_001 analytics overview: with no assessments it
yields the empty list; otherwise it flattens all trend entries and, if none
exist, falls back to one point per assessment built from the top-level
counts (total taken as totalProjects unchanged); otherwise it removes
duplicate dates keeping the first point encountered and sorts ascending by
parsed date. -/
def getTrendData (dateVal : String → Int) (assessments : Option (List Assessment)) :
    List TrendData :=
  match assessments with
  | none => []
  | some as =>
    let allTrends := flatTrends as
    if allTrends.length = 0 then
      as.map (fun a =>
        ⟨a.assessmentDate, a.greenProjects, a.amberProjects, a.redProjects, a.totalProjects⟩)
    else
      List.insertionSort (fun a b => dateVal a.date ≤ dateVal b.date) (dedupByDate allTrends)

/-- Per-assessment contribution of getChartData (analytics-overview.tsx):
when the trends array is present and non-empty, one point per trend entry;
otherwise a single fallback point from the top-level counts with
total = totalProjects - (errorProjects || 0).  The browser date formatter
(`toLocaleDateString`) is abstracted as fmtDate. -/
def contribOf (fmtDate : String → String) (a : Assessment) : List TrendData :=
  match a.trends with
  | some ts =>
    if 0 < ts.length then
      ts.map (fun t => ⟨fmtDate t.assessmentDate, t.green, t.amber, t.red, t.total⟩)
    else
      [⟨fmtDate a.assessmentDate, a.greenProjects, a.amberProjects, a.redProjects,
        a.totalProjects - a.errorProjects.getD 0⟩]
  | none =>
    [⟨fmtDate a.assessmentDate, a.greenProjects, a.amberProjects, a.redProjects,
      a.totalProjects - a.errorProjects.getD 0⟩]

/-- getChartData of analytics-overview.tsx: with no assessment list it yields
the empty list; otherwise it concatenates the per-assessment contributions
and sorts by parsed date, newest first. -/
def getChartData (dateVal : String → Int) (fmtDate : String → String)
    (assessment : Option (List Assessment)) : List TrendData :=
  match assessment with
  | none => []
  | some as =>
    List.insertionSort (fun a b => dateVal b.date ≤ dateVal a.date)
      (as.foldr (fun a rest => contribOf fmtDate a ++ rest) [])

/-- Lowercasing as performed by JavaScript `toLowerCase`, mapped over the
characters of the string. -/
def toLowerCase (s : String) : String :=
  ⟨s.data.map Char.toLower⟩

/-- Result shape of the strategic-projects extraction in
ai-assessment-header.tsx. -/
structure StrategicProjectsData where
  total : Int
  statusCounts : List (String × Int)
  displayText : String
deriving Repr, DecidableEq

/-- Property lookup on an importance-group mapping, modelled as an
association list keyed by importance label. -/
def lookupGroup (groups : List (String × List (String × Int))) (key : String) :
    Option (List (String × Int)) :=
  (groups.find? (fun kv => kv.fst == key)).map Prod.snd

/-- Key lookup policy of strategicProjectsData
(`importanceGroups.strategic || importanceGroups["strategic "]`): the
"strategic" group, falling back to the trailing-space key. -/
def findStrategicGroup (groups : List (String × List (String × Int))) :
    Option (List (String × Int)) :=
  match lookupGroup groups "strategic" with
  | some g => some g
  | none => lookupGroup groups "strategic "

/-- strategicProjectsData of ai-assessment-header.tsx: with no
importance-group mapping, or with neither strategic key present, it yields
total 0 and an empty status map; otherwise it drops entries whose
lowercased status is "error", totals the remaining counts and renders the
display text. -/
def strategicProjectsData (importanceGroups : Option (List (String × List (String × Int)))) :
    StrategicProjectsData :=
  match importanceGroups with
  | none => ⟨0, [], "0 Strategic Projects"⟩
  | some groups =>
    match findStrategicGroup groups with
    | none => ⟨0, [], "0 Strategic Projects"⟩
    | some strategicGroup =>
      let filteredStatusCounts :=
        strategicGroup.filter (fun sc => toLowerCase sc.fst != "error")
      let total := (filteredStatusCounts.map Prod.snd).foldl (· + ·) 0
      ⟨total, filteredStatusCounts,
        toString total ++ " Strategic Projects" ++
          (if 0 < total then
            " (" ++ String.intercalate ", "
              (filteredStatusCounts.map (fun sc => sc.fst ++ ": " ++ toString sc.snd)) ++ ")"
          else "")⟩

/-- ProjectStatus record of the external projects API as used by the
projects page (part_005): reporting date, the AI-derived status used for
filtering and sorting, the RAG status, and the client-escalation flag. -/
structure ProjectStatus where
  reportingDate : String
  llmAiStatus : String
  ragStatus : String
  clientEscalation : Bool
deriving Repr, DecidableEq

/-- latestStatus of the projects page (part_005): when the status sequence
is present and non-empty, the head of the copy sorted by reporting date
newest first; otherwise null. -/
def latestStatus (dateVal : String → Int) (statuses : Option (List ProjectStatus)) :
    Option ProjectStatus :=
  match statuses with
  | none => none
  | some ss =>
    if 0 < ss.length then
      (List.insertionSort (fun a b => dateVal b.reportingDate ≤ dateVal a.reportingDate) ss).head?
    else none

/-- External project record as used by the projects page (part_005), with
the fields the filter and sort read; optional string fields are modelled
with the empty string playing the role JavaScript gives a missing value
under `|| ""`. -/
structure ExternalProject where
  projectName : String
  account : String
  projectCodeId : String
  importance : String
  projectManagerName : String
  projectStatuses : Option (List ProjectStatus)
deriving Repr, DecidableEq

/-- The custom status priority of the projects-page sort:
Red 0, Amber 1, Green 2, anything else (including unset) 3. -/
def statusOrder (s : String) : Nat :=
  if s == "Red" then 0 else if s == "Amber" then 1 else if s == "Green" then 2 else 3

/-- The custom importance priority of the projects-page sort:
High 0, Medium 1, Low 2, anything else (including unset) 3. -/
def importanceOrder (s : String) : Nat :=
  if s == "High" then 0 else if s == "Medium" then 1 else if s == "Low" then 2 else 3

/-- Sort key of the status sort: priority rank of the latest status's
llmAiStatus, the empty string when there is none. -/
def statusSortValue (dateVal : String → Int) (p : ExternalProject) : Nat :=
  statusOrder
    (match latestStatus dateVal p.projectStatuses with
     | some st => st.llmAiStatus
     | none => "")

/-- Sort key of the importance sort: priority rank of the project's
importance field. -/
def importanceSortValue (p : ExternalProject) : Nat :=
  importanceOrder p.importance

/-- sortedProjects of the projects page (part_005): stable sort of the
filtered list by the selected field.  The source comparator returns -1/1/0
from comparing the two key values and flips its sign when descending; a
stable sort under that comparator equals the stable sort under the relation
"key a ≤ key b" (ascending) or "key b ≤ key a" (descending). -/
def sortedProjects (dateVal : String → Int) (sortField : String) (ascending : Bool)
    (l : List ExternalProject) : List ExternalProject :=
  if sortField == "status" then
    if ascending then
      List.insertionSort (fun a b => statusSortValue dateVal a ≤ statusSortValue dateVal b) l
    else
      List.insertionSort (fun a b => statusSortValue dateVal b ≤ statusSortValue dateVal a) l
  else if sortField == "importance" then
    if ascending then
      List.insertionSort (fun a b => importanceSortValue a ≤ importanceSortValue b) l
    else
      List.insertionSort (fun a b => importanceSortValue b ≤ importanceSortValue a) l
  else if sortField == "manager" then
    if ascending then
      List.insertionSort (fun a b => a.projectManagerName ≤ b.projectManagerName) l
    else
      List.insertionSort (fun a b => b.projectManagerName ≤ a.projectManagerName) l
  else
    if ascending then
      List.insertionSort (fun a b => a.projectName ≤ b.projectName) l
    else
      List.insertionSort (fun a b => b.projectName ≤ a.projectName) l

/-- Weekly status report as consumed by the server dashboard routes:
project id, creation timestamp, reporting date, RAG status and the
client-escalation flag. -/
structure WeeklyReport where
  projectId : Nat
  createdAt : Int
  reportingDate : String
  ragStatus : String
  clientEscalation : Bool
deriving Repr, DecidableEq

/-- One step of the latest-report-per-project Map build of
GET /api/dashboard/stats: a report for a new project is appended; a report
strictly newer than the stored one for its project replaces it in place. -/
def upsertLatest (acc : List WeeklyReport) (r : WeeklyReport) : List WeeklyReport :=
  match acc.find? (fun x => x.projectId == r.projectId) with
  | none => acc ++ [r]
  | some stored =>
    if stored.createdAt < r.createdAt then
      acc.map (fun x => if x.projectId == r.projectId then r else x)
    else acc

/-- The latest report per project, in first-seen project order, as built by
GET /api/dashboard/stats. -/
def latestReportsArray (reports : List WeeklyReport) : List WeeklyReport :=
  reports.foldl upsertLatest []

/-- Response shape of GET /api/dashboard/stats. -/
structure DashboardStats where
  greenProjects : Nat
  amberProjects : Nat
  redProjects : Nat
  escalations : Nat
  totalProjects : Nat
deriving Repr, DecidableEq

/-- GET /api/dashboard/stats: count the latest reports whose ragStatus is
exactly Green, Amber or Red, count escalations, and report the number of
latest reports as the total. -/
def dashboardStats (reports : List WeeklyReport) : DashboardStats :=
  let arr := latestReportsArray reports
  ⟨(arr.filter (fun r => r.ragStatus == "Green")).length,
   (arr.filter (fun r => r.ragStatus == "Amber")).length,
   (arr.filter (fun r => r.ragStatus == "Red")).length,
   (arr.filter (fun r => r.clientEscalation)).length,
   arr.length⟩

/-- RAG counters of one week bucket of the trend routes. -/
structure RagCounts where
  green : Nat
  amber : Nat
  red : Nat
deriving Repr, DecidableEq

/-- Counter update of GET /api/dashboard/trends: increment the bucket named
by the ragStatus, and change nothing for any other value. -/
def bumpCounts (c : RagCounts) (status : String) : RagCounts :=
  if status == "Green" then { c with green := c.green + 1 }
  else if status == "Amber" then { c with amber := c.amber + 1 }
  else if status == "Red" then { c with red := c.red + 1 }
  else c

/-- One step of the week-key grouping Map build of GET /api/dashboard/trends:
a report under a new week key inserts a zeroed counter bucket which is then
incremented; an existing bucket is incremented in place.  The conversion of
a reporting date to its week key (`toISOString().split("T")[0]`) is
abstracted as isoDay. -/
def addReport (isoDay : String → String) (acc : List (String × RagCounts))
    (r : WeeklyReport) : List (String × RagCounts) :=
  let weekKey := isoDay r.reportingDate
  match acc.find? (fun kv => kv.fst == weekKey) with
  | none => acc ++ [(weekKey, bumpCounts ⟨0, 0, 0⟩ r.ragStatus)]
  | some _ =>
    acc.map (fun kv =>
      if kv.fst == weekKey then (kv.fst, bumpCounts kv.snd r.ragStatus) else kv)

/-- The grouped week buckets of GET /api/dashboard/trends, in first-seen
week order. -/
def trendEntries (isoDay : String → String) (reports : List WeeklyReport) :
    List (String × RagCounts) :=
  reports.foldl (addReport isoDay) []

/-- Response point of GET /api/dashboard/trends. -/
structure ServerTrendPoint where
  date : String
  green : Nat
  amber : Nat
  red : Nat
deriving Repr, DecidableEq

/-- The full trend series of GET /api/dashboard/trends before truncation:
week buckets sorted ascending by week key (localeCompare). -/
def dashboardTrendsFull (isoDay : String → String) (reports : List WeeklyReport) :
    List ServerTrendPoint :=
  (List.insertionSort (fun a b => a.fst ≤ b.fst) (trendEntries isoDay reports)).map
    (fun kv => ⟨kv.fst, kv.snd.green, kv.snd.amber, kv.snd.red⟩)

/-- GET /api/dashboard/trends: the week buckets sorted ascending by week key
and truncated to the last 8 (`slice(-8)`). -/
def dashboardTrends (isoDay : String → String) (reports : List WeeklyReport) :
    List ServerTrendPoint :=
  let sorted := List.insertionSort (fun a b => a.fst ≤ b.fst) (trendEntries isoDay reports)
  ((sorted.drop (sorted.length - 8)).map
    (fun kv => ⟨kv.fst, kv.snd.green, kv.snd.amber, kv.snd.red⟩))

/-- RAG status of a project status record in the part_002 analytics
overview, whose interface admits the legacy value Yellow. -/
inductive WeeklyRag where
  | Green
  | Amber
  | Yellow
  | Red
deriving Repr, DecidableEq

/-- Normalized RAG status stored per project per week in part_002, after
aliasing Yellow to Amber. -/
inductive Rag3 where
  | Green
  | Amber
  | Red
deriving Repr, DecidableEq

/-- The Yellow-to-Amber aliasing of part_002
(`status.ragStatus === "Yellow" ? "Amber" : status.ragStatus`). -/
def normalizeYellow : WeeklyRag → Rag3
  | .Yellow => .Amber
  | .Green => .Green
  | .Amber => .Amber
  | .Red => .Red

/-- Project status record of the part_002 analytics overview. -/
structure WProjectStatus where
  reportingDate : String
  ragStatus : WeeklyRag
deriving Repr, DecidableEq

/-- Project record of the part_002 analytics overview. -/
structure WProject where
  projectId : Nat
  projectStatuses : Option (List WProjectStatus)
deriving Repr, DecidableEq

/-- One step of the week grouping of getWeeklyTrend (part_002): ensure the
week bucket exists, then record the status for the project only if the
project has no status recorded in that week yet.  The week-key computation
(ISO week number tag) is abstracted as weekOf. -/
def addStatusToWeek (weekOf : String → String) (pid : Nat)
    (acc : List (String × List (Nat × Rag3))) (st : WProjectStatus) :
    List (String × List (Nat × Rag3)) :=
  let weekKey := weekOf st.reportingDate
  match acc.find? (fun kv => kv.fst == weekKey) with
  | none => acc ++ [(weekKey, [(pid, normalizeYellow st.ragStatus)])]
  | some _ =>
    acc.map (fun kv =>
      if kv.fst == weekKey then
        (kv.fst,
          if (kv.snd.find? (fun e => e.fst == pid)).isSome then kv.snd
          else kv.snd ++ [(pid, normalizeYellow st.ragStatus)])
      else kv)

/-- Per-project step of getWeeklyTrend (part_002): a project with a missing
or empty status list is skipped; otherwise its statuses, sorted newest
first, are folded into the week groups so the most recent status per week
wins. -/
def addProject (weekOf : String → String) (dateVal : String → Int)
    (acc : List (String × List (Nat × Rag3))) (p : WProject) :
    List (String × List (Nat × Rag3)) :=
  match p.projectStatuses with
  | none => acc
  | some ss =>
    if ss.length = 0 then acc
    else
      (List.insertionSort (fun a b => dateVal b.reportingDate ≤ dateVal a.reportingDate) ss).foldl
        (addStatusToWeek weekOf p.projectId) acc

/-- The week groups of getWeeklyTrend (part_002), in first-seen week
order. -/
def weeklyGroups (weekOf : String → String) (dateVal : String → Int)
    (projects : List WProject) : List (String × List (Nat × Rag3)) :=
  projects.foldl (addProject weekOf dateVal) []

/-- Per-week RAG counting of getWeeklyTrend (part_002). -/
def countWeek (entries : List (Nat × Rag3)) : RagCounts :=
  entries.foldl
    (fun c e =>
      match e.snd with
      | .Green => { c with green := c.green + 1 }
      | .Amber => { c with amber := c.amber + 1 }
      | .Red => { c with red := c.red + 1 })
    ⟨0, 0, 0⟩

/-- Chart point of getWeeklyTrend (part_002). -/
structure WeeklyTrendData where
  week : String
  date : String
  green : Nat
  amber : Nat
  red : Nat
  total : Nat
deriving Repr, DecidableEq

/-- getWeeklyTrend of the part_002 analytics overview: with no projects it
yields the empty list; otherwise it groups the latest status per project
per week, sorts the week keys ascending, keeps the last 8
(`slice(-8)`) and renders one point per kept week, labelled W1..W8 by
post-slice position. -/
def getWeeklyTrend (weekOf : String → String) (dateVal : String → Int)
    (projects : Option (List WProject)) : List WeeklyTrendData :=
  match projects with
  | none => []
  | some ps =>
    let groups := weeklyGroups weekOf dateVal ps
    let sortedWeeks := List.insertionSort (fun a b => a ≤ b) (groups.map Prod.fst)
    let lastWeeks := sortedWeeks.drop (sortedWeeks.length - 8)
    lastWeeks.enum.map (fun iw =>
      let weekData :=
        match groups.find? (fun kv => kv.fst == iw.snd) with
        | some kv => kv.snd
        | none => []
      let counts := countWeek weekData
      ⟨"W" ++ toString (iw.fst + 1), iw.snd, counts.green, counts.amber, counts.red,
        weekData.length⟩)

/-- Outcome of the upstream fetch performed by the GET /api/projects proxy:
either the fetch rejects (network error), or a response arrives with its
ok flag, status code, status text, and a JSON body parse that can itself
fail. -/
inductive FetchOutcome where
  | networkError (message : String)
  | response (ok : Bool) (status : Nat) (statusText : String) (body : Except String String)
deriving Repr

/-- Body of the proxy's reply: the forwarded JSON data on success, or a
message/error envelope on failure. -/
inductive ProxyBody where
  | data (payload : String)
  | errorEnvelope (message : String) (error : String)
deriving Repr, DecidableEq

/-- Reply of the proxy: HTTP status plus body. -/
structure ProxyResponse where
  status : Nat
  body : ProxyBody
deriving Repr, DecidableEq

/-- The try block of GET /api/projects: a rejected fetch propagates its
error; a non-ok response throws "External API error: status statusText";
otherwise the JSON parse outcome is returned. -/
def proxyTry (outcome : FetchOutcome) : Except String String :=
  match outcome with
  | .networkError msg => .error msg
  | .response ok status statusText body =>
    if ok then body
    else .error ("External API error: " ++ toString status ++ " " ++ statusText)

/-- GET /api/projects: forward the parsed upstream body with status 200, and
turn any caught error into status 500 with a message/error envelope. -/
def apiProjectsProxy (outcome : FetchOutcome) : ProxyResponse :=
  match proxyTry outcome with
  | .ok d => ⟨200, .data d⟩
  | .error e => ⟨500, .errorEnvelope "Failed to fetch projects from external API" e⟩

/-- LLM configuration record of the local store, reduced to the fields the
POST /api/llm-config route manipulates. -/
structure LlmConfiguration where
  id : Nat
  isActive : Bool
deriving Repr, DecidableEq

/-- Modelled from the spec: the local store (`storage`, whose module is not
part of the corpus; §6 describes these routes as CRUD-style pass-through to
a local in-memory/DB-backed store).  updateLlmConfiguration with
`{ isActive: false }` sets the flag on the configuration with the given
id. -/
def updateLlmConfigurationInactive (configs : List LlmConfiguration) (cid : Nat) :
    List LlmConfiguration :=
  configs.map (fun c => if c.id == cid then { c with isActive := false } else c)

/-- POST /api/llm-config: deactivate every existing configuration, then
create the new one (modelled from the spec as appending a record to the
store; its isActive flag is left arbitrary, so the result holds whatever
the created record carries). -/
def postLlmConfig (store : List LlmConfiguration) (newId : Nat) (newActive : Bool) :
    List LlmConfiguration :=
  let existingIds := store.map (fun c => c.id)
  let deactivated := existingIds.foldl updateLlmConfigurationInactive store
  deactivated ++ [⟨newId, newActive⟩]

/-- The ascending-sorted week keys of getWeeklyTrend (part_002), before the
slice(-8) truncation. -/
def sortedWeekKeys (weekOf : String → String) (dateVal : String → Int)
    (projects : List WProject) : List String :=
  List.insertionSort (fun a b => a ≤ b) ((weeklyGroups weekOf dateVal projects).map Prod.fst)

theorem pairwise_insertionSort_of {α : Type} (r : α → α → Prop) [DecidableRel r]
    (htrans : ∀ a b c, r a b → r b c → r a c) (htotal : ∀ a b, r a b ∨ r b a)
    (l : List α) : (List.insertionSort r l).Pairwise r := by
  haveI : IsTotal α r := ⟨htotal⟩
  haveI : IsTrans α r := ⟨fun a b c => htrans a b c⟩
  exact List.sorted_insertionSort r l

/-- C7: every aggregation function degrades to an empty or zeroed output on
empty or missing input: both trend-series builders, the strategic-group
extractor, the dashboard stats aggregator and both weekly trend groupings
return empty lists or all-zero counts for absent or empty collections. -/
theorem aggregations_total_on_empty :
    ∀ (dv : String → Int) (fmt weekOf isoDay : String → String),
      getTrendData dv none = [] ∧ getTrendData dv (some []) = [] ∧
      getChartData dv fmt none = [] ∧ getChartData dv fmt (some []) = [] ∧
      strategicProjectsData none = ⟨0, [], "0 Strategic Projects"⟩ ∧
      strategicProjectsData (some []) = ⟨0, [], "0 Strategic Projects"⟩ ∧
      dashboardStats [] = ⟨0, 0, 0, 0, 0⟩ ∧
      dashboardTrends isoDay [] = [] ∧
      getWeeklyTrend weekOf dv none = [] ∧ getWeeklyTrend weekOf dv (some []) = [] := by
  intro dv fmt weekOf isoDay
  exact ⟨rfl, rfl, rfl, rfl, rfl, rfl, rfl, rfl, rfl, rfl⟩

/-- C8: the projects proxy forwards a successfully parsed upstream body with
status 200, and maps a network error, a non-ok upstream status, or a body
parse failure to status 500 with a message/error envelope. -/
theorem apiProjectsProxy_forwarding :
    ∀ (st : Nat) (stx d m : String) (b : Except String String),
      apiProjectsProxy (.response true st stx (.ok d)) = ⟨200, .data d⟩ ∧
      apiProjectsProxy (.networkError m) =
        ⟨500, .errorEnvelope "Failed to fetch projects from external API" m⟩ ∧
      apiProjectsProxy (.response false st stx b) =
        ⟨500, .errorEnvelope "Failed to fetch projects from external API"
          ("External API error: " ++ toString st ++ " " ++ stx)⟩ ∧
      apiProjectsProxy (.response true st stx (.error m)) =
        ⟨500, .errorEnvelope "Failed to fetch projects from external API" m⟩ :=
  fun _ _ _ _ _ => ⟨rfl, rfl, rfl, rfl⟩

theorem foldl_updateInactive (ids : List Nat) :
    ∀ cfgs : List LlmConfiguration,
      ids.foldl updateLlmConfigurationInactive cfgs
        = cfgs.map (fun c => if c.id ∈ ids then { c with isActive := false } else c) := by
  induction ids with
  | nil => intro cfgs; simp
  | cons i rest ih =>
    intro cfgs
    rw [List.foldl_cons, ih, updateLlmConfigurationInactive, List.map_map]
    refine List.map_congr_left (fun c _ => ?_)
    by_cases hc : c.id = i
    · by_cases hm : c.id ∈ rest <;>
        simp [Function.comp, hc, hm, List.mem_cons]
    · by_cases hm : c.id ∈ rest <;>
        simp [Function.comp, hc, hm, List.mem_cons]

/-- C9: after a POST to /api/llm-config, every configuration that existed
before the request is inactive and only the newly created one may be
active, so the store holds at most one active configuration. -/
theorem postLlmConfig_single_active (store : List LlmConfiguration) (newId : Nat)
    (newActive : Bool) :
    postLlmConfig store newId newActive
        = store.map (fun c => { c with isActive := false }) ++ [⟨newId, newActive⟩] ∧
      ((postLlmConfig store newId newActive).filter (fun c => c.isActive)).length ≤ 1 := by
  have heq : postLlmConfig store newId newActive
      = store.map (fun c => { c with isActive := false }) ++ [⟨newId, newActive⟩] := by
    show List.foldl updateLlmConfigurationInactive store (store.map (fun c => c.id))
        ++ [⟨newId, newActive⟩] = _
    rw [foldl_updateInactive]
    refine congrArg (fun t => t ++ [(⟨newId, newActive⟩ : LlmConfiguration)]) ?_
    refine List.map_congr_left (fun c hc => ?_)
    have hmem : c.id ∈ store.map (fun c => c.id) := List.mem_map_of_mem _ hc
    simp [hmem]
  refine ⟨heq, ?_⟩
  rw [heq, List.filter_append]
  have hnil : (store.map (fun c => { c with isActive := false })).filter
      (fun c => c.isActive) = [] := by
    rw [List.filter_map]
    have : (store.filter ((fun c : LlmConfiguration => c.isActive) ∘
        (fun c => { c with isActive := false }))) = [] := by
      simp [Function.comp]
    rw [this, List.map_nil]
  rw [hnil, List.nil_append]
  cases newActive <;> simp

/-- C2: for an Assessment whose trends array is absent or empty, getChartData
synthesizes exactly one fallback point from the top-level fields, with the
RAG counts taken from greenProjects/amberProjects/redProjects and total
equal to totalProjects minus errorProjects (defaulted to 0 when absent). -/
theorem getChartData_fallback_point (fmt : String → String) (dv : String → Int)
    (a : Assessment) (h : a.trends = none ∨ a.trends = some []) :
    contribOf fmt a =
      [⟨fmt a.assessmentDate, a.greenProjects, a.amberProjects, a.redProjects,
        a.totalProjects - a.errorProjects.getD 0⟩] ∧
    getChartData dv fmt (some [a]) =
      [⟨fmt a.assessmentDate, a.greenProjects, a.amberProjects, a.redProjects,
        a.totalProjects - a.errorProjects.getD 0⟩] := by
  have hc : contribOf fmt a =
      [⟨fmt a.assessmentDate, a.greenProjects, a.amberProjects, a.redProjects,
        a.totalProjects - a.errorProjects.getD 0⟩] := by
    rcases h with h | h <;> simp [contribOf, h]
  refine ⟨hc, ?_⟩
  simp [getChartData, hc, List.insertionSort]

/-- C2 witness: the Assessment with counts green 3, amber 2, red 1, error 1
and total 7 and no trends array yields the single point with counts 3/2/1
and total 6. -/
theorem getChartData_fallback_point_witness :
    getChartData (fun _ => 0) (fun s => s)
        (some [⟨"2024-01-01", 3, 2, 1, some 1, 7, none⟩]) =
      [⟨"2024-01-01", 3, 2, 1, 6⟩] := by
  have h := getChartData_fallback_point (fun s => s) (fun _ => 0)
    ⟨"2024-01-01", 3, 2, 1, some 1, 7, none⟩ (Or.inl rfl)
  simpa using h.2

/-- C3: the strategic-group extractor returns total 0 and an empty status
map when neither the "strategic" key nor the trailing-space "strategic "
key is present; when "strategic" is absent but "strategic " is present it
uses the trailing-space group and totals its status counts excluding
entries whose key lowercases to "error"; in particular the group map with
only a trailing-space strategic entry of green 2 yields total 2. -/
theorem strategicProjectsData_extraction (groups : List (String × List (String × Int)))
    (g : List (String × Int))
    (h1 : lookupGroup groups "strategic" = none)
    (h2 : lookupGroup groups "strategic " = some g) :
    (∀ gs, lookupGroup gs "strategic" = none → lookupGroup gs "strategic " = none →
      strategicProjectsData (some gs) = ⟨0, [], "0 Strategic Projects"⟩) ∧
    (strategicProjectsData (some groups)).total =
      ((g.filter (fun sc => toLowerCase sc.fst != "error")).map Prod.snd).sum ∧
    (strategicProjectsData (some groups)).statusCounts =
      g.filter (fun sc => toLowerCase sc.fst != "error") ∧
    strategicProjectsData (some [("strategic ", [("green", 2)])]) =
      ⟨2, [("green", 2)], "2 Strategic Projects (green: 2)"⟩ := by
  refine ⟨?_, ?_, ?_, by decide⟩
  · intro gs hg1 hg2
    simp [strategicProjectsData, findStrategicGroup, hg1, hg2]
  · simp [strategicProjectsData, findStrategicGroup, h1, h2, List.sum_eq_foldl]
  · simp [strategicProjectsData, findStrategicGroup, h1, h2]

/-- C3 witness: applying the extraction theorem to the concrete mapping with
only the trailing-space strategic key gives total 2. -/
theorem strategicProjectsData_extraction_witness :
    (strategicProjectsData (some [("strategic ", [("green", 2)])])).total = 2 := by
  have h := strategicProjectsData_extraction
    [("strategic ", [("green", 2)])] [("green", 2)] (by decide) (by decide)
  rw [h.2.1]
  decide

/-- C10: both week-bucketed trend outputs are truncated to the most recent 8
week buckets: the server trends route returns at most 8 points, equal to
the final segment of the full ascending-sorted series past all but the
last 8, and the client weekly-trend builder returns at most 8 points whose
dates are the last 8 of the week keys sorted ascending. -/
theorem trend_series_last_eight (isoDay weekOf : String → String) (dv : String → Int)
    (reports : List WeeklyReport) (projects : List WProject) :
    (dashboardTrends isoDay reports).length ≤ 8 ∧
    dashboardTrends isoDay reports =
      (dashboardTrendsFull isoDay reports).drop
        ((dashboardTrendsFull isoDay reports).length - 8) ∧
    (dashboardTrendsFull isoDay reports).Pairwise (fun a b => a.date ≤ b.date) ∧
    (getWeeklyTrend weekOf dv (some projects)).length ≤ 8 ∧
    (getWeeklyTrend weekOf dv (some projects)).map (fun w => w.date) =
      (sortedWeekKeys weekOf dv projects).drop
        ((sortedWeekKeys weekOf dv projects).length - 8) ∧
    (sortedWeekKeys weekOf dv projects).Pairwise (fun a b => a ≤ b) := by
  refine ⟨?_, ?_, ?_, ?_, ?_, ?_⟩
  · simp only [dashboardTrends, List.length_map, List.length_drop]
    omega
  · simp only [dashboardTrends, dashboardTrendsFull, List.length_map]
    rw [List.map_drop]
  · simp only [dashboardTrendsFull]
    rw [List.pairwise_map]
    exact pairwise_insertionSort_of (fun a b : String × RagCounts => a.fst ≤ b.fst)
      (fun a b c hab hbc => le_trans hab hbc) (fun a b => le_total a.fst b.fst) _
  · simp only [getWeeklyTrend, List.length_map, List.enum_length, List.length_drop]
    omega
  · have hmap : ∀ (lw : List String) (g : Nat × String → WeeklyTrendData),
        (∀ iw, (g iw).date = iw.snd) → (lw.enum.map g).map (fun w => w.date) = lw := by
      intro lw g hg
      rw [List.map_map]
      have hcomp : ((fun w : WeeklyTrendData => w.date) ∘ g) = Prod.snd :=
        funext fun iw => hg iw
      rw [hcomp, List.enum_map_snd]
    simp only [getWeeklyTrend, sortedWeekKeys]
    exact hmap _ _ (fun iw => rfl)
  · exact pairwise_insertionSort_of (fun a b : String => a ≤ b)
      (fun a b c hab hbc => le_trans hab hbc) (fun a b => le_total a b) _

/-- C6: sorting the projects list by status orders records by the fixed
priority Red before Amber before Green before unset, and sorting by
importance orders them High before Medium before Low before unset, not
lexically (lowercase or unknown values rank last); each descending sort
orders by the exact reverse of that priority; every sort returns a
permutation of its input. -/
theorem sortedProjects_priority (dv : String → Int) (l : List ExternalProject) :
    (statusOrder "Red" < statusOrder "Amber" ∧ statusOrder "Amber" < statusOrder "Green" ∧
      statusOrder "Green" < statusOrder "") ∧
    (importanceOrder "High" < importanceOrder "Medium" ∧
      importanceOrder "Medium" < importanceOrder "Low" ∧
      importanceOrder "Low" < importanceOrder "") ∧
    (statusOrder "Amber" < statusOrder "green" ∧ importanceOrder "Low" < importanceOrder "high") ∧
    (sortedProjects dv "status" true l).Pairwise
      (fun a b => statusSortValue dv a ≤ statusSortValue dv b) ∧
    List.Perm (sortedProjects dv "status" true l) l ∧
    (sortedProjects dv "status" false l).Pairwise
      (fun a b => statusSortValue dv b ≤ statusSortValue dv a) ∧
    List.Perm (sortedProjects dv "status" false l) l ∧
    (sortedProjects dv "importance" true l).Pairwise
      (fun a b => importanceSortValue a ≤ importanceSortValue b) ∧
    List.Perm (sortedProjects dv "importance" true l) l ∧
    (sortedProjects dv "importance" false l).Pairwise
      (fun a b => importanceSortValue b ≤ importanceSortValue a) ∧
    List.Perm (sortedProjects dv "importance" false l) l := by
  refine ⟨⟨by decide, by decide, by decide⟩, ⟨by decide, by decide, by decide⟩,
    ⟨by decide, by decide⟩, ?_, ?_, ?_, ?_, ?_, ?_, ?_, ?_⟩
  · exact pairwise_insertionSort_of
      (fun a b => statusSortValue dv a ≤ statusSortValue dv b)
      (fun a b c hab hbc => le_trans hab hbc) (fun a b => Nat.le_total _ _) l
  · exact List.perm_insertionSort _ l
  · exact pairwise_insertionSort_of
      (fun a b => statusSortValue dv b ≤ statusSortValue dv a)
      (fun a b c hab hbc => le_trans hbc hab) (fun a b => Nat.le_total _ _) l
  · exact List.perm_insertionSort _ l
  · exact pairwise_insertionSort_of
      (fun a b => importanceSortValue a ≤ importanceSortValue b)
      (fun a b c hab hbc => le_trans hab hbc) (fun a b => Nat.le_total _ _) l
  · exact List.perm_insertionSort _ l
  · exact pairwise_insertionSort_of
      (fun a b => importanceSortValue b ≤ importanceSortValue a)
      (fun a b c hab hbc => le_trans hbc hab) (fun a b => Nat.le_total _ _) l
  · exact List.perm_insertionSort _ l

theorem mem_upsertLatest {x r : WeeklyReport} {acc : List WeeklyReport}
    (h : x ∈ upsertLatest acc r) : x ∈ acc ∨ x = r := by
  unfold upsertLatest at h
  split at h
  · rcases List.mem_append.mp h with h1 | h1
    · exact Or.inl h1
    · exact Or.inr (by simpa using h1)
  · split at h
    · rcases List.mem_map.mp h with ⟨y, hy, hxy⟩
      by_cases hc : y.projectId == r.projectId
      · rw [if_pos hc] at hxy
        exact Or.inr hxy.symm
      · rw [if_neg hc] at hxy
        exact Or.inl (hxy ▸ hy)
    · exact Or.inl h

theorem mem_foldl_upsert : ∀ (l acc : List WeeklyReport) (x : WeeklyReport),
    x ∈ l.foldl upsertLatest acc → x ∈ acc ∨ x ∈ l := by
  intro l
  induction l with
  | nil => exact fun acc x h => Or.inl h
  | cons r rest ih =>
    intro acc x h
    rcases ih (upsertLatest acc r) x h with h1 | h1
    · rcases mem_upsertLatest h1 with h2 | h2
      · exact Or.inl h2
      · exact Or.inr (by simp [h2])
    · exact Or.inr (List.mem_cons_of_mem _ h1)

theorem map_pid_upsert_of_found {acc : List WeeklyReport} {r : WeeklyReport}
    (h : ¬ acc.find? (fun x => x.projectId == r.projectId) = none) :
    (upsertLatest acc r).map (fun x => x.projectId) = acc.map (fun x => x.projectId) := by
  unfold upsertLatest
  split
  · exact absurd (by assumption) h
  · split
    · rw [List.map_map]
      refine List.map_congr_left (fun x _ => ?_)
      by_cases hc : x.projectId = r.projectId <;> simp [Function.comp, hc]
    · rfl

theorem map_pid_upsert_of_not_found {acc : List WeeklyReport} {r : WeeklyReport}
    (h : acc.find? (fun x => x.projectId == r.projectId) = none) :
    (upsertLatest acc r).map (fun x => x.projectId)
      = acc.map (fun x => x.projectId) ++ [r.projectId] := by
  unfold upsertLatest
  rw [h]
  simp

theorem mem_map_pid_upsert {acc : List WeeklyReport} {r : WeeklyReport} {pid : Nat} :
    pid ∈ (upsertLatest acc r).map (fun x => x.projectId) ↔
      pid ∈ acc.map (fun x => x.projectId) ∨ pid = r.projectId := by
  cases hf : acc.find? (fun x => x.projectId == r.projectId) with
  | none =>
    rw [map_pid_upsert_of_not_found hf]
    simp
  | some stored =>
    rw [map_pid_upsert_of_found (by simp [hf])]
    constructor
    · exact Or.inl
    · rintro (h1 | h1)
      · exact h1
      · have hmem := List.mem_of_find?_eq_some hf
        have hbeq := List.find?_some hf
        have heq : stored.projectId = r.projectId := by simpa using hbeq
        rw [h1, ← heq]
        exact List.mem_map_of_mem _ hmem

theorem nodup_pid_foldl : ∀ (l acc : List WeeklyReport),
    (acc.map (fun x => x.projectId)).Nodup →
    ((l.foldl upsertLatest acc).map (fun x => x.projectId)).Nodup := by
  intro l
  induction l with
  | nil => exact fun acc h => h
  | cons r rest ih =>
    intro acc hacc
    refine ih (upsertLatest acc r) ?_
    cases hf : acc.find? (fun x => x.projectId == r.projectId) with
    | none =>
      rw [map_pid_upsert_of_not_found hf]
      have hnotin : r.projectId ∉ acc.map (fun x => x.projectId) := by
        intro hmem
        rcases List.mem_map.mp hmem with ⟨y, hy, hpy⟩
        have := List.find?_eq_none.mp hf y hy
        simp [hpy] at this
      simp [List.nodup_append, hacc, hnotin]
    | some stored =>
      rw [map_pid_upsert_of_found (by rw [hf]; exact fun hx => Option.noConfusion hx)]
      exact hacc

theorem mem_pid_foldl : ∀ (l acc : List WeeklyReport) (pid : Nat),
    pid ∈ (l.foldl upsertLatest acc).map (fun x => x.projectId) ↔
      pid ∈ acc.map (fun x => x.projectId) ∨ pid ∈ l.map (fun x => x.projectId) := by
  intro l
  induction l with
  | nil => simp
  | cons r rest ih =>
    intro acc pid
    rw [List.foldl_cons, ih, mem_map_pid_upsert]
    simp only [List.map_cons, List.mem_cons]
    tauto

theorem three_filter_partition (arr : List WeeklyReport)
    (h : ∀ r ∈ arr, r.ragStatus = "Green" ∨ r.ragStatus = "Amber" ∨ r.ragStatus = "Red") :
    (arr.filter (fun r => r.ragStatus == "Green")).length
      + (arr.filter (fun r => r.ragStatus == "Amber")).length
      + (arr.filter (fun r => r.ragStatus == "Red")).length = arr.length := by
  induction arr with
  | nil => rfl
  | cons r rest ih =>
    have hr := h r (List.mem_cons_self r rest)
    have ih2 := ih (fun x hx => h x (List.mem_cons_of_mem _ hx))
    rcases hr with h1 | h1 | h1 <;> simp [List.filter_cons, h1] <;> omega

/-- C5: for every list of weekly reports such that each project's latest
report carries a status in Green/Amber/Red, the dashboard stats aggregator
partitions the latest report per project exactly: the three RAG bucket
counts sum to totalProjects, totalProjects is the number of latest
reports, their project ids are pairwise distinct, and a project id occurs
among them exactly when some input report carries it (no project dropped,
none counted twice).  Superseded older reports may carry any status. -/
theorem dashboardStats_partition (reports : List WeeklyReport)
    (h : ∀ r ∈ latestReportsArray reports,
      r.ragStatus = "Green" ∨ r.ragStatus = "Amber" ∨ r.ragStatus = "Red") :
    (dashboardStats reports).greenProjects + (dashboardStats reports).amberProjects
        + (dashboardStats reports).redProjects = (dashboardStats reports).totalProjects ∧
    (dashboardStats reports).totalProjects = (latestReportsArray reports).length ∧
    ((latestReportsArray reports).map (fun r => r.projectId)).Nodup ∧
    (∀ pid, pid ∈ (latestReportsArray reports).map (fun r => r.projectId) ↔
      pid ∈ reports.map (fun r => r.projectId)) := by
  refine ⟨?_, rfl, ?_, ?_⟩
  · exact three_filter_partition _ h
  · exact nodup_pid_foldl reports [] (by simp)
  · intro pid
    rw [latestReportsArray, mem_pid_foldl]
    simp

/-- C5 witness: for a project whose old Yellow report is superseded by a
newer Green one, plus a second project reporting Red, every latest report
is RAG-valued and the bucket counts sum to the total of 2. -/
theorem dashboardStats_partition_witness :
    (dashboardStats [⟨1, 0, "2024-01-01", "Yellow", false⟩,
        ⟨1, 5, "2024-01-05", "Green", false⟩,
        ⟨2, 1, "2024-01-05", "Red", true⟩]).greenProjects
      + (dashboardStats [⟨1, 0, "2024-01-01", "Yellow", false⟩,
          ⟨1, 5, "2024-01-05", "Green", false⟩,
          ⟨2, 1, "2024-01-05", "Red", true⟩]).amberProjects
      + (dashboardStats [⟨1, 0, "2024-01-01", "Yellow", false⟩,
          ⟨1, 5, "2024-01-05", "Green", false⟩,
          ⟨2, 1, "2024-01-05", "Red", true⟩]).redProjects
      = (dashboardStats [⟨1, 0, "2024-01-01", "Yellow", false⟩,
          ⟨1, 5, "2024-01-05", "Green", false⟩,
          ⟨2, 1, "2024-01-05", "Red", true⟩]).totalProjects :=
  (dashboardStats_partition
    [⟨1, 0, "2024-01-01", "Yellow", false⟩, ⟨1, 5, "2024-01-05", "Green", false⟩,
      ⟨2, 1, "2024-01-05", "Red", true⟩]
    (by decide)).1

/-- C5 counterexample: a single project whose only (hence latest) report
carries the legacy status Yellow is counted in totalProjects but in no RAG
bucket, so the bucket counts sum to 0 while N = 1. -/
theorem dashboardStats_yellow_dropped :
    (dashboardStats [⟨1, 0, "2024-01-05", "Yellow", false⟩]).greenProjects
        + (dashboardStats [⟨1, 0, "2024-01-05", "Yellow", false⟩]).amberProjects
        + (dashboardStats [⟨1, 0, "2024-01-05", "Yellow", false⟩]).redProjects = 0 ∧
      (dashboardStats [⟨1, 0, "2024-01-05", "Yellow", false⟩]).totalProjects = 1 := by
  decide

/-- C4: the current-status selector returns null exactly on a missing or
empty status sequence, and otherwise some record of the sequence whose
parsed reporting date is maximal; a project with a missing or empty status
sequence is skipped by the weekly RAG bucketing, contributing nothing to
any bucket. -/
theorem latestStatus_spec (dv : String → Int) (ss : List ProjectStatus) :
    latestStatus dv none = none ∧
    latestStatus dv (some []) = none ∧
    (∀ s, latestStatus dv (some ss) = some s →
      s ∈ ss ∧ ∀ t ∈ ss, dv t.reportingDate ≤ dv s.reportingDate) ∧
    (ss ≠ [] → ∃ s, latestStatus dv (some ss) = some s) ∧
    (∀ (weekOf : String → String) (p : WProject) (rest : List WProject),
      p.projectStatuses = none ∨ p.projectStatuses = some [] →
      getWeeklyTrend weekOf dv (some (p :: rest)) = getWeeklyTrend weekOf dv (some rest)) := by
  have hpair : (List.insertionSort
      (fun a b => dv b.reportingDate ≤ dv a.reportingDate) ss).Pairwise
      (fun a b => dv b.reportingDate ≤ dv a.reportingDate) :=
    pairwise_insertionSort_of
      (fun a b : ProjectStatus => dv b.reportingDate ≤ dv a.reportingDate)
      (fun a b c hab hbc => le_trans hbc hab)
      (fun a b => Int.le_total (dv b.reportingDate) (dv a.reportingDate)) ss
  have hperm : List.Perm
      (List.insertionSort (fun a b => dv b.reportingDate ≤ dv a.reportingDate) ss) ss :=
    List.perm_insertionSort _ ss
  refine ⟨rfl, rfl, ?_, ?_, ?_⟩
  · intro s hs
    by_cases hss : ss = []
    · subst hss
      simp [latestStatus] at hs
    · have hlen : 0 < ss.length := List.length_pos.mpr hss
      rw [latestStatus, if_pos hlen] at hs
      cases hS : List.insertionSort
          (fun a b => dv b.reportingDate ≤ dv a.reportingDate) ss with
      | nil => rw [hS] at hs; exact absurd hs (by simp)
      | cons a tail =>
        rw [hS] at hs
        have has : a = s := by simpa using hs
        subst has
        rw [hS] at hpair hperm
        refine ⟨hperm.mem_iff.mp (List.mem_cons_self a tail), ?_⟩
        intro t ht
        rcases List.mem_cons.mp (hperm.mem_iff.mpr ht) with h1 | h1
        · exact le_of_eq (by rw [h1])
        · exact (List.pairwise_cons.mp hpair).1 t h1
  · intro hss
    have hlen : 0 < ss.length := List.length_pos.mpr hss
    cases hS : List.insertionSort
        (fun a b => dv b.reportingDate ≤ dv a.reportingDate) ss with
    | nil =>
      rw [hS] at hperm
      exact absurd (hperm.symm.eq_nil) hss
    | cons a tail =>
      exact ⟨a, by rw [latestStatus, if_pos hlen, hS]; rfl⟩
  · intro weekOf p rest h
    rcases h with h | h <;> simp [getWeeklyTrend, weeklyGroups, addProject, h]

/-- C4 witness: on a concrete two-record sequence the selector picks the
record with the larger parsed date, the selector is defined on the
non-empty sequence, and a project with an empty status list contributes
nothing to the weekly grouping. -/
theorem latestStatus_spec_witness :
    ((⟨"2024-01-05", "Red", "Red", false⟩ : ProjectStatus) ∈
        ([⟨"2024-01-02", "Green", "Green", false⟩,
          ⟨"2024-01-05", "Red", "Red", false⟩] : List ProjectStatus) ∧
      ∀ t ∈ ([⟨"2024-01-02", "Green", "Green", false⟩,
          ⟨"2024-01-05", "Red", "Red", false⟩] : List ProjectStatus),
        (fun s => if s == "2024-01-05" then (5 : Int) else 1) t.reportingDate ≤
        (fun s => if s == "2024-01-05" then (5 : Int) else 1) "2024-01-05") ∧
    (∃ s, latestStatus (fun s => if s == "2024-01-05" then (5 : Int) else 1)
      (some [⟨"2024-01-02", "Green", "Green", false⟩,
        ⟨"2024-01-05", "Red", "Red", false⟩]) = some s) ∧
    getWeeklyTrend (fun _ => "") (fun s => if s == "2024-01-05" then (5 : Int) else 1)
        (some [⟨1, some []⟩]) =
      getWeeklyTrend (fun _ => "") (fun s => if s == "2024-01-05" then (5 : Int) else 1)
        (some []) :=
  ⟨(latestStatus_spec (fun s => if s == "2024-01-05" then (5 : Int) else 1)
      [⟨"2024-01-02", "Green", "Green", false⟩, ⟨"2024-01-05", "Red", "Red", false⟩]).2.2.1
      ⟨"2024-01-05", "Red", "Red", false⟩ (by decide),
   (latestStatus_spec (fun s => if s == "2024-01-05" then (5 : Int) else 1)
      [⟨"2024-01-02", "Green", "Green", false⟩, ⟨"2024-01-05", "Red", "Red", false⟩]).2.2.2.1
      (by decide),
   (latestStatus_spec (fun s => if s == "2024-01-05" then (5 : Int) else 1)
      [⟨"2024-01-02", "Green", "Green", false⟩, ⟨"2024-01-05", "Red", "Red", false⟩]).2.2.2.2
      (fun _ => "") ⟨1, some []⟩ [] (Or.inr rfl)⟩

theorem dedupStep_eq_of_found {acc : List TrendData} {c x : TrendData}
    (h : acc.find? (fun item => item.date == c.date) = some x) :
    dedupStep acc c = acc := by
  unfold dedupStep
  rw [h]

theorem dedupStep_eq_of_not_found {acc : List TrendData} {c : TrendData}
    (h : acc.find? (fun item => item.date == c.date) = none) :
    dedupStep acc c = acc ++ [c] := by
  unfold dedupStep
  rw [h]

theorem foldl_dedupStep_prefix : ∀ (l acc : List TrendData),
    ∃ t, l.foldl dedupStep acc = acc ++ t := by
  intro l
  induction l with
  | nil => exact fun acc => ⟨[], by simp⟩
  | cons c rest ih =>
    intro acc
    rcases ih (dedupStep acc c) with ⟨t, ht⟩
    rw [List.foldl_cons]
    cases hf : acc.find? (fun item => item.date == c.date) with
    | some x => exact ⟨t, by rw [ht, dedupStep_eq_of_found hf]⟩
    | none =>
      exact ⟨[c] ++ t, by rw [ht, dedupStep_eq_of_not_found hf, List.append_assoc]⟩

theorem mem_foldl_dedupStep : ∀ (l acc : List TrendData) (p : TrendData),
    p ∈ l.foldl dedupStep acc →
    p ∈ acc ∨ (p.date ∉ acc.map (fun x => x.date) ∧
      l.find? (fun q => q.date == p.date) = some p) := by
  intro l
  induction l with
  | nil => intro acc p h; exact Or.inl h
  | cons c rest ih =>
    intro acc p h
    rw [List.foldl_cons] at h
    have hsub : acc.map (fun x => x.date) ⊆ (dedupStep acc c).map (fun x => x.date) := by
      cases hf : acc.find? (fun item => item.date == c.date) with
      | some x =>
        rw [dedupStep_eq_of_found hf]
        exact fun a ha => ha
      | none =>
        rw [dedupStep_eq_of_not_found hf, List.map_append]
        exact List.subset_append_left _ _
    have hcdate : c.date ∈ (dedupStep acc c).map (fun x => x.date) := by
      cases hf : acc.find? (fun item => item.date == c.date) with
      | some x =>
        rw [dedupStep_eq_of_found hf]
        have hx := List.find?_some hf
        have hmem := List.mem_of_find?_eq_some hf
        have hxd : x.date = c.date := by simpa using hx
        exact hxd ▸ List.mem_map_of_mem _ hmem
      | none =>
        rw [dedupStep_eq_of_not_found hf, List.map_append]
        simp
    rcases ih (dedupStep acc c) p h with h1 | ⟨h2, h3⟩
    · cases hf : acc.find? (fun item => item.date == c.date) with
      | some x =>
        rw [dedupStep_eq_of_found hf] at h1
        exact Or.inl h1
      | none =>
        rw [dedupStep_eq_of_not_found hf] at h1
        rcases List.mem_append.mp h1 with h4 | h4
        · exact Or.inl h4
        · have hpc : p = c := by simpa using h4
          subst hpc
          refine Or.inr ⟨?_, ?_⟩
          · intro hmem
            rcases List.mem_map.mp hmem with ⟨y, hy, hyd⟩
            have hnone := List.find?_eq_none.mp hf y hy
            simp [hyd] at hnone
          · exact List.find?_cons_of_pos _ (by simp)
    · have hpd : p.date ∉ acc.map (fun x => x.date) := fun hm => h2 (hsub hm)
      have hne : ¬ ((fun q : TrendData => q.date == p.date) c = true) := by
        intro hb
        have hcp : c.date = p.date := by simpa using hb
        exact h2 (hcp ▸ hcdate)
      refine Or.inr ⟨hpd, ?_⟩
      have hfalse : (c.date == p.date) = false := by
        rcases Bool.eq_false_or_eq_true (c.date == p.date) with hb | hb
        · exact absurd hb hne
        · exact hb
      rw [List.find?_cons, hfalse]
      exact h3

theorem nodup_foldl_dedupStep : ∀ (l acc : List TrendData),
    (acc.map (fun x => x.date)).Nodup →
    ((l.foldl dedupStep acc).map (fun x => x.date)).Nodup := by
  intro l
  induction l with
  | nil => exact fun acc h => h
  | cons c rest ih =>
    intro acc hacc
    rw [List.foldl_cons]
    refine ih (dedupStep acc c) ?_
    cases hf : acc.find? (fun item => item.date == c.date) with
    | some x => rw [dedupStep_eq_of_found hf]; exact hacc
    | none =>
      rw [dedupStep_eq_of_not_found hf]
      have hnotin : c.date ∉ acc.map (fun x => x.date) := by
        intro hmem
        rcases List.mem_map.mp hmem with ⟨y, hy, hyd⟩
        have hnone := List.find?_eq_none.mp hf y hy
        simp [hyd] at hnone
      simp [List.nodup_append, hacc, hnotin]

theorem covered_foldl_dedupStep : ∀ (l acc : List TrendData) (q : TrendData), q ∈ l →
    ∃ p ∈ l.foldl dedupStep acc, p.date = q.date := by
  intro l
  induction l with
  | nil => intro acc q h; exact absurd h (List.not_mem_nil q)
  | cons c rest ih =>
    intro acc q hq
    rw [List.foldl_cons]
    rcases List.mem_cons.mp hq with h1 | h1
    · subst h1
      rcases foldl_dedupStep_prefix rest (dedupStep acc q) with ⟨t, ht⟩
      cases hf : acc.find? (fun item => item.date == q.date) with
      | some x =>
        refine ⟨x, ?_, ?_⟩
        · rw [ht, dedupStep_eq_of_found hf]
          exact List.mem_append_left _ (List.mem_of_find?_eq_some hf)
        · simpa using List.find?_some hf
      | none =>
        refine ⟨q, ?_, rfl⟩
        rw [ht, dedupStep_eq_of_not_found hf]
        simp
    · exact ih (dedupStep acc c) q h1

/-- C1 (amended): whenever the flattened trend entries of the assessments
are non-empty, getTrendData returns at most one point per date, each
returned point being the first flattened point carrying its date, every
flattened date being represented, and the points sorted ascending by
parsed date; for a missing or empty assessment list it returns the empty
sequence.  (On the fallback path, taken when no flattened trend entries
exist, the per-assessment points are neither de-duplicated nor sorted.) -/
theorem getTrendData_dedup_sorted (dv : String → Int) (l : List Assessment)
    (h : flatTrends l ≠ []) :
    ((getTrendData dv (some l)).map (fun p => p.date)).Nodup ∧
    (getTrendData dv (some l)).Pairwise (fun a b => dv a.date ≤ dv b.date) ∧
    (∀ p ∈ getTrendData dv (some l),
      (flatTrends l).find? (fun q => q.date == p.date) = some p) ∧
    (∀ q ∈ flatTrends l, ∃ p ∈ getTrendData dv (some l), p.date = q.date) ∧
    getTrendData dv none = [] ∧ getTrendData dv (some []) = [] := by
  have hlen : ¬ (flatTrends l).length = 0 := by
    simpa [List.length_eq_zero] using h
  have hgd : getTrendData dv (some l) =
      List.insertionSort (fun a b => dv a.date ≤ dv b.date)
        (dedupByDate (flatTrends l)) := by
    simp only [getTrendData]
    rw [if_neg hlen]
  have hperm := List.perm_insertionSort (fun a b : TrendData => dv a.date ≤ dv b.date)
    (dedupByDate (flatTrends l))
  refine ⟨?_, ?_, ?_, ?_, rfl, rfl⟩
  · rw [hgd]
    exact ((hperm.map (fun x => x.date)).nodup_iff).mpr
      (nodup_foldl_dedupStep (flatTrends l) [] (by simp))
  · rw [hgd]
    exact pairwise_insertionSort_of (fun a b : TrendData => dv a.date ≤ dv b.date)
      (fun a b c hab hbc => le_trans hab hbc) (fun a b => Int.le_total _ _) _
  · intro p hp
    rw [hgd] at hp
    have hmem : p ∈ dedupByDate (flatTrends l) := hperm.mem_iff.mp hp
    rcases mem_foldl_dedupStep (flatTrends l) [] p (by simpa [dedupByDate] using hmem)
      with h1 | ⟨_, h3⟩
    · exact absurd h1 (List.not_mem_nil p)
    · exact h3
  · intro q hq
    rcases covered_foldl_dedupStep (flatTrends l) [] q hq with ⟨p, hp, hd⟩
    refine ⟨p, ?_, hd⟩
    rw [hgd]
    exact hperm.mem_iff.mpr (by simpa [dedupByDate] using hp)

/-- C1 witness: one assessment carrying two trend entries that share the
date 2024-01-01 yields a series with pairwise-distinct dates. -/
theorem getTrendData_dedup_sorted_witness :
    flatTrends [⟨"2024-01-02", 1, 1, 1, none, 3,
        some [⟨"2024-01-01", 1, 0, 0, 1⟩, ⟨"2024-01-01", 0, 1, 0, 1⟩]⟩] ≠ [] ∧
    ((getTrendData (fun _ => 0) (some [⟨"2024-01-02", 1, 1, 1, none, 3,
        some [⟨"2024-01-01", 1, 0, 0, 1⟩, ⟨"2024-01-01", 0, 1, 0, 1⟩]⟩])).map
      (fun p => p.date)).Nodup :=
  ⟨by decide,
   (getTrendData_dedup_sorted (fun _ => 0) [⟨"2024-01-02", 1, 1, 1, none, 3,
      some [⟨"2024-01-01", 1, 0, 0, 1⟩, ⟨"2024-01-01", 0, 1, 0, 1⟩]⟩] (by decide)).1⟩

/-- C1 counterexample: two assessments with no trend entries and the same
assessment date take the fallback path, whose output carries the date
2024-01-01 twice, so the claimed one-point-per-date property fails on the
code as stated. -/
theorem getTrendData_fallback_duplicate :
    ¬ (((getTrendData (fun _ => 0)
        (some [⟨"2024-01-01", 1, 1, 1, none, 3, none⟩,
               ⟨"2024-01-01", 2, 0, 1, none, 3, none⟩])).map (fun p => p.date)).Nodup) := by
  decide

end Projectr
